import Mathlib

/-!
Verification of the remote-sync engine in src/main.rs.

Paths are modelled as lists of components, timestamps as integers
(seconds since the Unix epoch, as produced by Utc.timestamp_opt), and
fallible operations as Option/Except values.  Every definition is a
direct translation of the corresponding Rust code; line numbers in the
doc comments refer to src/src/main.rs.
-/

namespace RemoteSync

/-- A filesystem path, as its list of components (PathBuf). -/
abbrev Path := List String

/-- The three outcomes of the timestamp comparison in sync_file
(main.rs lines 143-202): equal times, local newer, remote newer. -/
inductive SyncDecision where
  | upToDate
  | pushToRemote
  | pullToLocal
deriving DecidableEq

/-- The decision structure of sync_file (main.rs 143, 146, 171):
if local.1 == remote.1 then up-to-date, else if local.1 > remote.1 then
push, else pull.  DateTime comparison on values built with
Utc.timestamp_opt(secs, 0) is numeric comparison of the seconds. -/
def syncDecide (localT remoteT : Int) : SyncDecision :=
  if localT = remoteT then .upToDate
  else if localT > remoteT then .pushToRemote
  else .pullToLocal

/-- The local timestamp as built at main.rs 120-127: the access time's
duration since the Unix epoch truncated with as_secs (whole seconds).
The input is the access time in milliseconds. -/
def localDateSecs (accessMs : Nat) : Int := Int.ofNat (accessMs / 1000)

/-- Projection of ssh2::FileStat to the field the program reads:
atime is Option<u64> (seconds), unwrapped at main.rs 128. -/
structure FileStat where
  atime : Option Nat
deriving DecidableEq

/-- One configured directory pair (main.rs 20-26). -/
structure Location where
  name : String
  local_path : Path
  remote_path : Path
  files : List Path

/-- PathBuf.strip_prefix (main.rs 119): succeeds with the suffix when
the argument starts with the given prefix of components, else errors
(modelled as none, converted by the surrounding question mark). -/
def stripRoot (root p : Path) : Option Path :=
  if root.isPrefixOf p then some (p.drop root.length) else none

/-- The remote-to-local mapping at main.rs 119:
loc.local_path.join(remote_file.0.strip_prefix(&loc.remote_path)?). -/
def mapRemoteFile (loc : Location) (remoteFile : Path) : Option Path :=
  (stripRoot loc.remote_path remoteFile).map (fun rel => loc.local_path ++ rel)

/-- Error values a pair or location can produce (the anyhow errors
propagated by the question marks in sync_location / sync_file). -/
inductive SyncError where
  | dirListError
  | pathMappingError
  | localMetadataError
  | transferError
deriving DecidableEq

/-- How a location's processing can end abnormally: a propagated error,
or the panic of the unwrap at main.rs 128. -/
inductive Failure where
  | err (e : SyncError)
  | panicked
deriving DecidableEq

/-- Outcome of processing a single (remote path, stat) pair inside the
loop at main.rs 118-131. -/
inductive StepOutcome where
  | ok (d : SyncDecision)
  | err (e : SyncError)
  | panicked
deriving DecidableEq

/-- The external world the sync runs against: whether the SSH session
can be established, the remote stat call, the result of glob_location's
directory walk (none models a readdir error, i.e. DirectoryListError),
the local file metadata (access time in milliseconds; none models a
fs::metadata or accessed error), and whether the byte transfer of
sync_file succeeds for a given local path. -/
structure World where
  sessionOk : Bool
  stat : Path → Option FileStat
  globResult : Path → Option (List (Path × FileStat))
  localAccessMs : Path → Option Nat
  transferOk : Path → Bool

/-- The body of the per-pair loop at main.rs 118-130: map the remote
path to the local one (119), read the local access time and truncate it
to seconds (120-127), unwrap the remote atime (128) — a missing atime
panics — then decide and, for push/pull, run the transfer (130 calls
sync_file, whose question mark propagates transfer failures). -/
def processPair (w : World) (loc : Location) (rf : Path × FileStat) : StepOutcome :=
  match mapRemoteFile loc rf.1 with
  | none => .err .pathMappingError
  | some localFile =>
    match w.localAccessMs localFile with
    | none => .err .localMetadataError
    | some ms =>
      match rf.2.atime with
      | none => .panicked
      | some a =>
        match syncDecide (localDateSecs ms) (Int.ofNat a) with
        | .upToDate => .ok .upToDate
        | .pushToRemote =>
          if w.transferOk localFile then .ok .pushToRemote else .err .transferError
        | .pullToLocal =>
          if w.transferOk localFile then .ok .pullToLocal else .err .transferError

/-- The loop at main.rs 118-131: pairs are processed in order; each
iteration ends in a question mark, so the first error (or panic) stops
the loop.  Returns the decisions recorded for the pairs that completed
and the failure, if any. -/
def runPairs (w : World) (loc : Location) :
    List (Path × FileStat) → List (Path × SyncDecision) × Option Failure
  | [] => ([], none)
  | rf :: rest =>
    match processPair w loc rf with
    | .ok d =>
      let r := runPairs w loc rest
      ((rf.1, d) :: r.1, r.2)
    | .err e => ([], some (.err e))
    | .panicked => ([], some .panicked)

/-- The explicit-file branch of sync_location (main.rs 103-115): for
each listed file, stat the joined remote path; on error the file is
printed and skipped (file_opt is None and nothing is pushed), on
success the (path, stat) pair is kept. -/
def explicitFiles (w : World) (loc : Location) : List (Path × FileStat) :=
  loc.files.filterMap (fun f =>
    (w.stat (loc.remote_path ++ f)).map (fun s => (loc.remote_path ++ f, s)))

/-- File-set resolution in sync_location (main.rs 100-116): an empty
files list walks the tree via glob_location (its readdir failure is the
propagated DirectoryListError), a non-empty list uses the explicit
branch. -/
def resolveFiles (w : World) (loc : Location) :
    Except SyncError (List (Path × FileStat)) :=
  if loc.files.isEmpty then
    match w.globResult loc.remote_path with
    | none => .error .dirListError
    | some fs => .ok fs
  else
    .ok (explicitFiles w loc)

/-- sync_location (main.rs 96-135): resolve the file set, then run the
per-pair loop. -/
def sync_location (w : World) (loc : Location) :
    List (Path × SyncDecision) × Option Failure :=
  match resolveFiles w loc with
  | .error e => ([], some (.err e))
  | .ok fs => runPairs w loc fs

/-- The location loop of sync_locations (main.rs 85-92): locations in
declared order; the Err arm calls bail! with the location name, ending
the whole run at the first failing location.  Returns the names of the
locations synced before the failure and, if any, the failing location's
name with its failure. -/
def sync_locations_loop (w : World) :
    List Location → List String × Option (String × Failure)
  | [] => ([], none)
  | l :: rest =>
    match sync_location w l with
    | (_, none) =>
      let r := sync_locations_loop w rest
      (l.name :: r.1, r.2)
    | (_, some fl) => ([], some (l.name, fl))

/-- The configuration struct RemoteSyncHelper (main.rs 28-34). -/
structure RemoteSyncHelper where
  auto_sync : Bool
  remote : String
  user : String
  locations : List Location

inductive ExitStatus where
  | success
  | failure
deriving DecidableEq

/-- What a whole run did: how many SSH session establishments were
attempted (TcpStream::connect at main.rs 76), which locations fully
synced, the first failure if any, and the process exit status. -/
structure RunReport where
  sessionAttempts : Nat
  syncedLocations : List String
  failedLocation : Option (String × Failure)
  exitStatus : ExitStatus
deriving DecidableEq

/-- sync_locations (main.rs 74-94): connect and authenticate one
session (76-83; failure aborts the run), then loop over locations. -/
def sync_locations_run (w : World) (cfg : RemoteSyncHelper) : RunReport :=
  if w.sessionOk then
    match sync_locations_loop w cfg.locations with
    | (synced, none) => ⟨1, synced, none, .success⟩
    | (synced, some fl) => ⟨1, synced, some fl, .failure⟩
  else ⟨1, [], none, .failure⟩

/-- main (main.rs 220-240): a failed init exits with failure; with a
loaded config, auto_sync = true runs sync_locations and maps its result
to the exit code, auto_sync = false prints and exits successfully
without touching the network. -/
def mainRun (initResult : Option RemoteSyncHelper) (w : World) : RunReport :=
  match initResult with
  | none => ⟨0, [], none, .failure⟩
  | some cfg =>
    if cfg.auto_sync then sync_locations_run w cfg
    else ⟨0, [], none, .success⟩

/-- One pair's observable state for the idempotence question: the two
byte contents and the two compared timestamps (whole seconds). -/
structure PairState where
  localBytes : List Nat
  remoteBytes : List Nat
  localT : Int
  remoteT : Int
deriving DecidableEq

/-- The state effect of sync_file (main.rs 137-204) on one pair:
up-to-date does nothing; push copies the local bytes to the remote
(148-168); pull copies the remote bytes to the local (171-199).
Neither branch sets any timestamp: scp_send is called with None for
the times argument (158) and no utimes/setstat call exists, so the
compared access times are left as they are. -/
def syncFileStep (s : PairState) : PairState :=
  match syncDecide s.localT s.remoteT with
  | .upToDate => s
  | .pushToRemote => ⟨s.localBytes, s.localBytes, s.localT, s.remoteT⟩
  | .pullToLocal => ⟨s.remoteBytes, s.remoteBytes, s.localT, s.remoteT⟩

/-- C3: timestamp decision totality and trichotomy — syncDecide always
produces exactly one of the three decisions, with equality giving
UpToDate, a newer local time giving PushToRemote and a newer remote
time giving PullToLocal. -/
theorem c3_decision_trichotomy (a b : Int) :
    (syncDecide a b = .upToDate ↔ a = b)
    ∧ (syncDecide a b = .pushToRemote ↔ b < a)
    ∧ (syncDecide a b = .pullToLocal ↔ a < b) := by
  unfold syncDecide
  split_ifs with h1 h2 <;> refine ⟨?_, ?_, ?_⟩ <;> constructor <;> intro h <;>
    simp_all <;> omega

/-- C9 counterexample: a local access time of 1900 ms and a remote
access time of 2000 ms (reported over SFTP as atime = 2 seconds) differ
by 100 ms, less than one second, yet the decision is PullToLocal, not
UpToDate: the claim that every pair of access times less than one
second apart is up-to-date is false. -/
theorem c9_counterexample :
    2000 - 1900 < 1000
    ∧ syncDecide (localDateSecs 1900) (Int.ofNat (2000 / 1000)) = .pullToLocal
    ∧ SyncDecision.pullToLocal ≠ SyncDecision.upToDate := by
  decide

/-- C9 (amended): timestamps are compared at whole-second resolution —
the local access time is truncated to integer seconds — so any two
access times lying in the same whole second compare as UpToDate. -/
theorem c9_whole_second_resolution (msL msR : Nat) (h : msL / 1000 = msR / 1000) :
    syncDecide (localDateSecs msL) (Int.ofNat (msR / 1000)) = .upToDate := by
  unfold localDateSecs syncDecide
  rw [h]
  simp

/-- Witness for c9_whole_second_resolution at 1234 ms and 1999 ms. -/
theorem c9_witness :
    syncDecide (localDateSecs 1234) (Int.ofNat (1999 / 1000)) = .upToDate :=
  c9_whole_second_resolution 1234 1999 (by decide)

/-- C4 counterexample: a pair with local time 2 and remote time 1 is
pushed on the first run, and since sync_file leaves both timestamps
unchanged, the second run's decision is again PushToRemote, not
UpToDate. -/
theorem c4_counterexample :
    syncDecide (2 : Int) 1 = .pushToRemote
    ∧ syncDecide (syncFileStep ⟨[7], [], 2, 1⟩).localT
        (syncFileStep ⟨[7], [], 2, 1⟩).remoteT ≠ .upToDate := by
  decide

/-- C4 (amended): because sync_file never sets a timestamp (scp_send is
called with times = None and there is no utimes call), a second run
with no intervening external changes reproduces the first run's
decision for every pair — it is UpToDate on the second run exactly for
the pairs that were already UpToDate. -/
theorem c4_second_run_repeats_decision (s : PairState) :
    syncDecide (syncFileStep s).localT (syncFileStep s).remoteT
      = syncDecide s.localT s.remoteT := by
  unfold syncFileStep
  cases h : syncDecide s.localT s.remoteT <;> simp [h]

/-- C6: mapping remote_root ++ p yields local_root ++ p (the relative
suffix is preserved); re-applying the mapping to the remote path
carrying the produced local path's relative suffix yields the same
local path again (stability under repeated application); and a remote
path that is not under remote_root makes the mapping fail rather than
produce a path. -/
theorem c6_path_mapping_round_trip (loc : Location) (p q : Path)
    (hq : loc.remote_path.isPrefixOf q = false) :
    mapRemoteFile loc (loc.remote_path ++ p) = some (loc.local_path ++ p)
    ∧ (∀ l, mapRemoteFile loc (loc.remote_path ++ p) = some l →
        mapRemoteFile loc (loc.remote_path ++ l.drop loc.local_path.length) = some l)
    ∧ mapRemoteFile loc q = none := by
  have hpre : loc.remote_path.isPrefixOf (loc.remote_path ++ p) = true :=
    List.isPrefixOf_iff_prefix.mpr (List.prefix_append _ _)
  have hmap : mapRemoteFile loc (loc.remote_path ++ p) = some (loc.local_path ++ p) := by
    unfold mapRemoteFile stripRoot
    rw [hpre]
    simp [List.drop_left]
  refine ⟨hmap, ?_, ?_⟩
  · intro l hl
    rw [hmap] at hl
    obtain rfl : loc.local_path ++ p = l := Option.some.inj hl
    rw [List.drop_left]
    exact hmap
  · unfold mapRemoteFile stripRoot
    rw [hq]
    simp

/-- Witness for c6_path_mapping_round_trip with roots r and l, relative
path u, and the outside path z. -/
theorem c6_witness :
    mapRemoteFile ⟨"C", ["l"], ["r"], [["x"]]⟩ (["r"] ++ ["u"]) = some (["l"] ++ ["u"])
    ∧ (∀ s, mapRemoteFile ⟨"C", ["l"], ["r"], [["x"]]⟩ (["r"] ++ ["u"]) = some s →
        mapRemoteFile ⟨"C", ["l"], ["r"], [["x"]]⟩
          (["r"] ++ s.drop (["l"] : Path).length) = some s)
    ∧ mapRemoteFile ⟨"C", ["l"], ["r"], [["x"]]⟩ ["z"] = none :=
  c6_path_mapping_round_trip ⟨"C", ["l"], ["r"], [["x"]]⟩ ["u"] ["z"] (by decide)

/-- C10: when the loaded configuration has auto_sync = false, the run
attempts no session establishment, syncs no location, and exits with
the success status. -/
theorem c10_auto_sync_off (cfg : RemoteSyncHelper) (w : World)
    (hauto : cfg.auto_sync = false) :
    mainRun (some cfg) w = ⟨0, [], none, .success⟩ := by
  unfold mainRun
  simp [hauto]

/-- Witness for c10_auto_sync_off on a concrete disabled config. -/
theorem c10_witness :
    mainRun (some ⟨false, "host", "user", []⟩)
      ⟨true, fun _ => none, fun _ => none, fun _ => none, fun _ => false⟩
      = ⟨0, [], none, .success⟩ :=
  c10_auto_sync_off ⟨false, "host", "user", []⟩
    ⟨true, fun _ => none, fun _ => none, fun _ => none, fun _ => false⟩ rfl

/-- Location A for the failure-isolation counterexample: two explicit
files a and b under root ra. -/
def locA : Location := ⟨"A", ["la"], ["ra"], [["a"], ["b"]]⟩

/-- Location B for the failure-isolation counterexample: one explicit
file c under root rb. -/
def locB : Location := ⟨"B", ["lb"], ["rb"], [["c"]]⟩

/-- A world in which every listed remote file exists with atime 5, the
local copies of b and c exist with access time 5000 ms, but the local
copy of a is missing, so a's metadata read fails. -/
def wC1 : World :=
  ⟨true,
   fun p => if p = ["ra", "a"] ∨ p = ["ra", "b"] ∨ p = ["rb", "c"]
            then some ⟨some 5⟩ else none,
   fun _ => some [],
   fun p => if p = ["la", "b"] ∨ p = ["lb", "c"] then some 5000 else none,
   fun _ => true⟩

/-- C1 counterexample: in wC1, location A's first pair fails with a
local metadata error while its sibling pair b would succeed on its own,
and location B would succeed on its own — yet sync_location records no
outcome for b, and the run over [A, B] stops at A without attempting B.
Sibling pairs and later locations are not isolated from the failure,
refuting the claim as stated. -/
theorem c1_counterexample :
    processPair wC1 locA (["ra", "b"], ⟨some 5⟩) = .ok .upToDate
    ∧ (sync_location wC1 locB).2 = none
    ∧ sync_location wC1 locA = ([], some (.err .localMetadataError))
    ∧ sync_locations_loop wC1 [locA, locB]
        = ([], some ("A", .err .localMetadataError)) := by
  decide

/-- C1 (amended): the run stops at the first failure.  Within a
location, the first failing pair ends the pair loop — the pairs after
it are ignored, exactly as if they were not listed — and the loop
reports the failure.  Across locations, the first failing location
makes the orchestrator bail out with that location's name: earlier
locations are reported as synced, later ones are never attempted. -/
theorem c1_run_stops_at_first_failure (w : World) (loc : Location)
    (pre : List (Path × FileStat)) (rf : Path × FileStat)
    (post : List (Path × FileStat))
    (locsPre : List Location) (badLoc : Location) (locsPost : List Location)
    (fl : Failure)
    (hpre : ∀ p ∈ pre, ∃ d, processPair w loc p = .ok d)
    (hbad : ∀ d, processPair w loc rf ≠ .ok d)
    (hlocs : ∀ l ∈ locsPre, (sync_location w l).2 = none)
    (hbadloc : (sync_location w badLoc).2 = some fl) :
    runPairs w loc (pre ++ rf :: post) = runPairs w loc (pre ++ [rf])
    ∧ (runPairs w loc (pre ++ rf :: post)).2.isSome = true
    ∧ sync_locations_loop w (locsPre ++ badLoc :: locsPost)
        = (locsPre.map Location.name, some (badLoc.name, fl)) := by
  have hrf : ∀ acc, runPairs w loc (rf :: acc) = runPairs w loc [rf] := by
    intro acc
    cases hp : processPair w loc rf with
    | ok d => exact absurd hp (hbad d)
    | err e => simp [runPairs, hp]
    | panicked => simp [runPairs, hp]
  have hfail : (runPairs w loc [rf]).2.isSome = true := by
    cases hp : processPair w loc rf with
    | ok d => exact absurd hp (hbad d)
    | err e => simp [runPairs, hp]
    | panicked => simp [runPairs, hp]
  have hpairs : ∀ (pre' : List (Path × FileStat)),
      (∀ p ∈ pre', ∃ d, processPair w loc p = .ok d) →
      runPairs w loc (pre' ++ rf :: post) = runPairs w loc (pre' ++ [rf])
      ∧ (runPairs w loc (pre' ++ rf :: post)).2.isSome = true := by
    intro pre' hpre'
    induction pre' with
    | nil =>
      refine ⟨hrf post, ?_⟩
      rw [List.nil_append, hrf post]
      exact hfail
    | cons p ps ih =>
      obtain ⟨d, hd⟩ := hpre' p (List.mem_cons_self p ps)
      have ihs := ih (fun q hq => hpre' q (List.mem_cons_of_mem p hq))
      constructor
      · simp only [List.cons_append, runPairs, hd, List.append_eq]
        rw [ihs.1]
      · simp only [List.cons_append, runPairs, hd, List.append_eq]
        exact ihs.2
  have hloop : sync_locations_loop w (locsPre ++ badLoc :: locsPost)
      = (locsPre.map Location.name, some (badLoc.name, fl)) := by
    induction locsPre with
    | nil =>
      have hb : sync_location w badLoc
          = ((sync_location w badLoc).1, some fl) := by
        rw [← hbadloc]
      simp only [List.nil_append, sync_locations_loop]
      rw [hb]
      simp
    | cons l ls ih =>
      have hl : (sync_location w l).2 = none := hlocs l (List.mem_cons_self l ls)
      have hrest := ih (fun x hx => hlocs x (List.mem_cons_of_mem l hx))
      have hc : sync_location w l = ((sync_location w l).1, none) := by
        rw [← hl]
      simp only [List.cons_append, sync_locations_loop, List.append_eq]
      rw [hc, hrest]
      simp
  exact ⟨(hpairs pre hpre).1, (hpairs pre hpre).2, hloop⟩

/-- Witness for c1_run_stops_at_first_failure on the wC1 scenario:
failing pair a with sibling b behind it in location A, then location B
behind the failing location A. -/
theorem c1_witness :
    runPairs wC1 locA ([] ++ (["ra", "a"], (⟨some 5⟩ : FileStat)) :: [(["ra", "b"], ⟨some 5⟩)])
      = runPairs wC1 locA ([] ++ [(["ra", "a"], ⟨some 5⟩)])
    ∧ (runPairs wC1 locA ([] ++ (["ra", "a"], (⟨some 5⟩ : FileStat)) :: [(["ra", "b"], ⟨some 5⟩)])).2.isSome = true
    ∧ sync_locations_loop wC1 ([] ++ locA :: [locB])
        = (([] : List Location).map Location.name,
           some (locA.name, .err .localMetadataError)) :=
  c1_run_stops_at_first_failure wC1 locA [] (["ra", "a"], ⟨some 5⟩)
    [(["ra", "b"], ⟨some 5⟩)] [] locA [locB] (.err .localMetadataError)
    (by intro p hp; cases hp)
    (by intro d; cases d <;> decide)
    (by intro l hl; cases hl)
    (by decide)

/-- Location C for the explicit-list counterexample: one explicit file
x under root r. -/
def locC : Location := ⟨"C", ["l"], ["r"], [["x"]]⟩

/-- A world in which no remote file exists: every stat call fails. -/
def wC2 : World :=
  ⟨true, fun _ => none, fun _ => some [], fun _ => some 0, fun _ => true⟩

/-- C2 counterexample: location C explicitly lists x, x is missing on
the remote side, and sync_location completes with no recorded pair and
no failure — the entry is silently skipped (only a message is printed)
instead of producing a hard MissingFileError, refuting the claim as
stated. -/
theorem c2_counterexample :
    locC.files = [["x"]]
    ∧ wC2.stat (locC.remote_path ++ ["x"]) = none
    ∧ sync_location wC2 locC = ([], none) := by
  decide

/-- C2 (amended): an explicitly listed file that is missing on the
remote side is not a hard error: its stat failure is only printed and
the entry is skipped — it contributes no pair to the location's file
set, so no transfer and no error is produced for it, and a location all
of whose listed files are missing remotely completes with no outcome at
all.  (A listed file that exists remotely but is missing locally still
aborts the location with a metadata error when its pair is processed.) -/
theorem c2_missing_explicit_file_skipped (w : World) (loc : Location) (f : Path)
    (hf : f ∈ loc.files)
    (hmiss : w.stat (loc.remote_path ++ f) = none) :
    (∀ pr ∈ explicitFiles w loc, pr.1 ≠ loc.remote_path ++ f)
    ∧ ((∀ g ∈ loc.files, w.stat (loc.remote_path ++ g) = none) →
        sync_location w loc = ([], none)) := by
  constructor
  · intro pr hpr heq
    obtain ⟨g, hg, hsome⟩ := List.mem_filterMap.mp hpr
    obtain ⟨s, hs, hpr_eq⟩ := Option.map_eq_some'.mp hsome
    have hpaths : loc.remote_path ++ g = loc.remote_path ++ f := by
      rw [← heq, ← hpr_eq]
    have hgf : g = f := List.append_cancel_left hpaths
    rw [hgf, hmiss] at hs
    exact Option.noConfusion hs
  · intro hall
    have hne : loc.files.isEmpty = false := by
      cases hfs : loc.files with
      | nil => rw [hfs] at hf; cases hf
      | cons a l => simp
    have hempty : explicitFiles w loc = [] := by
      unfold explicitFiles
      rw [List.filterMap_eq_nil_iff]
      intro g hg
      rw [hall g hg]
      rfl
    unfold sync_location resolveFiles
    rw [hne]
    simp only [Bool.false_eq_true, if_false, hempty]
    rfl

/-- Witness for c2_missing_explicit_file_skipped at locC in the
all-missing world wC2. -/
theorem c2_witness :
    (∀ pr ∈ explicitFiles wC2 locC, pr.1 ≠ locC.remote_path ++ ["x"])
    ∧ ((∀ g ∈ locC.files, wC2.stat (locC.remote_path ++ g) = none) →
        sync_location wC2 locC = ([], none)) :=
  c2_missing_explicit_file_skipped wC2 locC ["x"] (by decide) rfl

/-- C8: the per-location sync unconditionally unwraps the remote stat's
optional atime (main.rs 128): once the pair's local path mapped and its
local metadata was read, a remote entry whose stat carries no atime
makes the pair step panic rather than return an error, and the panic
ends the location's pair loop with no recorded outcome — the no-atime
branch is reachable and unguarded. -/
theorem c8_missing_atime_panics (w : World) (loc : Location)
    (rf : Path × FileStat) (rest : List (Path × FileStat))
    (lp : Path) (ms : Nat)
    (hmap : mapRemoteFile loc rf.1 = some lp)
    (hms : w.localAccessMs lp = some ms)
    (hatime : rf.2.atime = none) :
    processPair w loc rf = .panicked
    ∧ runPairs w loc (rf :: rest) = ([], some .panicked) := by
  have hstep : processPair w loc rf = .panicked := by
    simp [processPair, hmap, hms, hatime]
  exact ⟨hstep, by simp [runPairs, hstep]⟩

/-- Witness for c8_missing_atime_panics: a remote entry under locC's
root whose stat has atime = None. -/
theorem c8_witness :
    processPair wC2 locC (["r", "x"], ⟨none⟩) = .panicked
    ∧ runPairs wC2 locC [(["r", "x"], ⟨none⟩)] = ([], some .panicked) :=
  c8_missing_atime_panics wC2 locC (["r", "x"], ⟨none⟩) [] ["l", "x"] 0
    (by decide) rfl rfl

/-- The observable operations of sync_file's two transfer branches
(main.rs 148-170 for push, 172-201 for pull). -/
inductive TransferEvent where
  | openLocalRead
  | readLocalContents
  | scpSendOpen
  | writeAllBytes
  | openLocalWrite
  | scpRecvOpen
  | copyBytes
  | sendEof
  | waitEof
  | closeChannel
  | waitClose
deriving DecidableEq

/-- The four termination-handshake operations. -/
def isTermStep : TransferEvent → Bool
  | .sendEof | .waitEof | .closeChannel | .waitClose => true
  | _ => false

/-- The termination sequence performed at main.rs 165-168 and again at
196-199: send_eof, wait_eof, close, wait_close. -/
def termSeq : List TransferEvent :=
  [.sendEof, .waitEof, .closeChannel, .waitClose]

/-- The operations of the push branch in program order (main.rs
148-168): open the local file (151), read it fully (the read_to_end in
the scp_send argument, 158), open the remote write stream (157), write
all bytes (162), then the four termination steps (165-168). -/
def pushSteps : List TransferEvent :=
  [.openLocalRead, .readLocalContents, .scpSendOpen, .writeAllBytes] ++ termSeq

/-- The operations of the pull branch in program order (main.rs
172-199): create the local file (175), open the remote read stream
(178), copy the bytes (183), then the four termination steps
(196-199). -/
def pullSteps : List TransferEvent :=
  [.openLocalWrite, .scpRecvOpen, .copyBytes] ++ termSeq

/-- Run a sequence of fallible operations the way the question marks in
sync_file do: each operation either succeeds (per the oracle) and the
next one runs, or the whole branch aborts with an error (none). -/
def runSteps (ok : TransferEvent → Bool) : List TransferEvent → Option (List TransferEvent)
  | [] => some []
  | e :: es => if ok e then (runSteps ok es).map (fun tr => e :: tr) else none

/-- sync_file's I/O behaviour by decision (main.rs 137-204): up-to-date
performs no I/O; push and pull run their operation sequences, aborting
at the first failed operation. -/
def sync_file_run (ok : TransferEvent → Bool) : SyncDecision → Option (List TransferEvent)
  | .upToDate => some []
  | .pushToRemote => runSteps ok pushSteps
  | .pullToLocal => runSteps ok pullSteps

/-- A completed run of a straight-line operation sequence performed
exactly the listed operations. -/
theorem runSteps_some (ok : TransferEvent → Bool) :
    ∀ (l tr : List TransferEvent), runSteps ok l = some tr → tr = l := by
  intro l
  induction l with
  | nil =>
    intro tr h
    simp only [runSteps, Option.some.injEq] at h
    exact h.symm
  | cons e es ih =>
    intro tr h
    simp only [runSteps] at h
    by_cases hok : ok e
    · rw [if_pos hok] at h
      obtain ⟨tr', htr', heq⟩ := Option.map_eq_some'.mp h
      rw [← heq, ih tr' htr']
    · rw [if_neg hok] at h
      exact Option.noConfusion h

/-- C7: for every executed transfer — a push or pull whose branch ran
to completion — the performed operations contain exactly the four
termination steps send_eof, wait_eof, close, wait_close, in exactly
that order, and they come after all the non-termination work, which
includes the byte copy (write_all for push, io::copy for pull); none
of the four is skipped. -/
theorem c7_termination_handshake (ok : TransferEvent → Bool) (d : SyncDecision)
    (tr : List TransferEvent)
    (hd : d ≠ .upToDate) (h : sync_file_run ok d = some tr) :
    tr.filter isTermStep = termSeq
    ∧ ∃ pre, tr = pre ++ termSeq
        ∧ pre.all (fun e => ! isTermStep e) = true
        ∧ (TransferEvent.writeAllBytes ∈ pre ∨ TransferEvent.copyBytes ∈ pre) := by
  cases d with
  | upToDate => exact absurd rfl hd
  | pushToRemote =>
    have htr : tr = pushSteps := runSteps_some ok pushSteps tr h
    subst htr
    exact ⟨by decide,
      [.openLocalRead, .readLocalContents, .scpSendOpen, .writeAllBytes],
      by decide, by decide, by decide⟩
  | pullToLocal =>
    have htr : tr = pullSteps := runSteps_some ok pullSteps tr h
    subst htr
    exact ⟨by decide,
      [.openLocalWrite, .scpRecvOpen, .copyBytes],
      by decide, by decide, by decide⟩

/-- Witness for c7_termination_handshake: a push in which every
operation succeeds. -/
theorem c7_witness :
    pushSteps.filter isTermStep = termSeq
    ∧ ∃ pre, pushSteps = pre ++ termSeq
        ∧ pre.all (fun e => ! isTermStep e) = true
        ∧ (TransferEvent.writeAllBytes ∈ pre ∨ TransferEvent.copyBytes ∈ pre) :=
  c7_termination_handshake (fun _ => true) .pushToRemote pushSteps
    (by decide) (by decide)

/-- A finite remote filesystem tree, as the walker observes it:
readdir on a directory returns its entries, each either a file (with an
identifying label standing for its path and stat) or a subdirectory
with its own entries (f.1.is_dir() distinguishes the two). -/
inductive FSEntry where
  | file (id : Nat)
  | dir (entries : List FSEntry)

/-- FileStat::is_dir on a directory entry (main.rs 208, 212). -/
def is_dir : FSEntry → Bool
  | .dir _ => true
  | .file _ => false

/-- What handle.readdir returns for an entry: the listing of a
directory, nothing for a file (the walker never lists files). -/
def children : FSEntry → List FSEntry
  | .file _ => []
  | .dir es => es

mutual

/-- Size of a tree entry, the walker's termination measure. -/
def esize : FSEntry → Nat
  | .file _ => 1
  | .dir es => 1 + esizeList es

/-- Total size of a list of entries. -/
def esizeList : List FSEntry → Nat
  | [] => 0
  | e :: es => esize e + esizeList es

end

theorem esize_pos (e : FSEntry) : 0 < esize e := by
  cases e with
  | file i => simp [esize]
  | dir es => simp only [esize]; omega

theorem esizeList_append (a b : List FSEntry) :
    esizeList (a ++ b) = esizeList a + esizeList b := by
  induction a with
  | nil => simp [esizeList]
  | cons e es ih =>
    simp only [List.cons_append, esizeList, List.append_eq] at ih ⊢
    omega

theorem esizeList_filter_le (p : FSEntry → Bool) (l : List FSEntry) :
    esizeList (l.filter p) ≤ esizeList l := by
  induction l with
  | nil => simp [esizeList]
  | cons e es ih =>
    by_cases h : p e
    · simp only [List.filter_cons, h, if_pos, esizeList]
      omega
    · simp only [List.filter_cons, h, Bool.false_eq_true, if_false, esizeList]
      have := esize_pos e
      omega

theorem esizeList_children_lt (e : FSEntry) : esizeList (children e) < esize e := by
  cases e <;> simp [children, esize, esizeList]

theorem globLoop_dec (d : FSEntry) (rest : List FSEntry) :
    esizeList (rest ++ (children d).filter is_dir) < esizeList (d :: rest) := by
  have h1 := esizeList_filter_le is_dir (children d)
  have h2 := esizeList_children_lt d
  rw [esizeList_append]
  simp only [esizeList]
  omega

/-- The while loop of glob_location (main.rs 210-215): take the first
pending directory, list it, move its subdirectories to the back of the
pending queue (the extract_if at 212 removes them from the listing),
append the remaining file entries to the accumulator (213), and drop
the processed directory (214). -/
def globLoop (dirs files : List FSEntry) : List FSEntry :=
  match dirs with
  | [] => files
  | d :: rest =>
    globLoop (rest ++ (children d).filter is_dir)
      (files ++ (children d).filter (fun e => ! is_dir e))
termination_by esizeList dirs
decreasing_by
  exact globLoop_dec _ _

/-- glob_location (main.rs 206-217): list the root (207), extract its
subdirectories as the initial pending queue (208), keep its files as
the initial accumulator, then run the loop. -/
def glob_location (root : FSEntry) : List FSEntry :=
  globLoop ((children root).filter is_dir)
    ((children root).filter (fun e => ! is_dir e))

mutual

/-- The file entries reachable in a tree entry, in depth-first order:
a file is itself, a directory contributes its entries' files. -/
def filesUnder : FSEntry → List FSEntry
  | .file i => [.file i]
  | .dir es => filesUnderList es

/-- The file entries reachable in a list of entries. -/
def filesUnderList : List FSEntry → List FSEntry
  | [] => []
  | e :: es => filesUnder e ++ filesUnderList es

end

/-- The files still owed by the pending-directory queue: each queued
entry will contribute the files reachable under its listing. -/
def queueContrib : List FSEntry → List FSEntry
  | [] => []
  | d :: ds => filesUnderList (children d) ++ queueContrib ds

theorem queueContrib_append (a b : List FSEntry) :
    queueContrib (a ++ b) = queueContrib a ++ queueContrib b := by
  induction a with
  | nil => simp [queueContrib]
  | cons d ds ih =>
    simp only [List.cons_append, queueContrib, List.append_eq, List.append_assoc] at ih ⊢
    rw [ih]

/-- Coercion of a list append to a multiset sum, in rewrite-friendly
orientation. -/
theorem coe_append (a b : List FSEntry) :
    ((a ++ b : List FSEntry) : Multiset FSEntry) = ↑a + ↑b :=
  (Multiset.coe_add a b).symm

theorem filesUnder_of_dir (e : FSEntry) (h : is_dir e = true) :
    filesUnder e = filesUnderList (children e) := by
  cases e with
  | file i => simp [is_dir] at h
  | dir es => simp [filesUnder, children]

theorem filesUnder_of_file (e : FSEntry) (h : is_dir e = false) :
    filesUnder e = [e] := by
  cases e with
  | file i => simp [filesUnder]
  | dir es => simp [is_dir] at h

/-- Splitting a listing into its file entries and the files owed by its
subdirectory entries accounts for every reachable file exactly once. -/
theorem filter_contrib (es : List FSEntry) :
    ((es.filter (fun e => ! is_dir e) : List FSEntry) : Multiset FSEntry)
      + ↑(queueContrib (es.filter is_dir))
    = ↑(filesUnderList es) := by
  induction es with
  | nil => simp [queueContrib, filesUnderList]
  | cons e es ih =>
    cases h : is_dir e with
    | true =>
      rw [List.filter_cons_of_neg (by simp [h]), List.filter_cons_of_pos h]
      simp only [queueContrib, filesUnderList]
      rw [filesUnder_of_dir e h]
      rw [coe_append, coe_append, ← ih]
      abel
    | false =>
      rw [List.filter_cons_of_pos (by simp [h]), List.filter_cons_of_neg (by simp [h])]
      simp only [filesUnderList]
      rw [filesUnder_of_file e h]
      have hco : ((e :: es.filter (fun x => ! is_dir x) : List FSEntry) : Multiset FSEntry)
          = ↑([e] ++ es.filter (fun x => ! is_dir x)) := by simp
      rw [hco, coe_append, coe_append, ← ih]
      abel

/-- Loop invariant of the walker: the final accumulator holds, as a
multiset, the current accumulator plus every file owed by the pending
queue. -/
theorem globLoop_multiset :
    ∀ (n : Nat) (dirs files : List FSEntry), esizeList dirs ≤ n →
    ((globLoop dirs files : List FSEntry) : Multiset FSEntry)
      = ↑files + ↑(queueContrib dirs) := by
  intro n
  induction n with
  | zero =>
    intro dirs files hn
    cases dirs with
    | nil => simp [globLoop, queueContrib]
    | cons d rest =>
      exfalso
      have := esize_pos d
      simp only [esizeList] at hn
      omega
  | succ n ih =>
    intro dirs files hn
    cases dirs with
    | nil => simp [globLoop, queueContrib]
    | cons d rest =>
      have h1 := esizeList_filter_le is_dir (children d)
      have h2 := esizeList_children_lt d
      simp only [esizeList] at hn
      have hsz : esizeList (rest ++ (children d).filter is_dir) ≤ n := by
        rw [esizeList_append]
        omega
      rw [show globLoop (d :: rest) files
          = globLoop (rest ++ (children d).filter is_dir)
              (files ++ (children d).filter (fun e => ! is_dir e)) from by
        simp only [globLoop]]
      rw [ih _ _ hsz]
      rw [coe_append, queueContrib_append, coe_append]
      simp only [queueContrib]
      rw [coe_append]
      rw [← filter_contrib (children d)]
      abel

/-- Loop invariant of the walker: the accumulator only ever receives
non-directory entries. -/
theorem globLoop_no_dirs :
    ∀ (n : Nat) (dirs files : List FSEntry), esizeList dirs ≤ n →
    files.all (fun e => ! is_dir e) = true →
    (globLoop dirs files).all (fun e => ! is_dir e) = true := by
  intro n
  induction n with
  | zero =>
    intro dirs files hn hf
    cases dirs with
    | nil => rw [show globLoop [] files = files from by simp only [globLoop]]; exact hf
    | cons d rest =>
      exfalso
      have := esize_pos d
      simp only [esizeList] at hn
      omega
  | succ n ih =>
    intro dirs files hn hf
    cases dirs with
    | nil => rw [show globLoop [] files = files from by simp only [globLoop]]; exact hf
    | cons d rest =>
      have h1 := esizeList_filter_le is_dir (children d)
      have h2 := esizeList_children_lt d
      simp only [esizeList] at hn
      have hsz : esizeList (rest ++ (children d).filter is_dir) ≤ n := by
        rw [esizeList_append]
        omega
      rw [show globLoop (d :: rest) files
          = globLoop (rest ++ (children d).filter is_dir)
              (files ++ (children d).filter (fun e => ! is_dir e)) from by
        simp only [globLoop]]
      refine ih _ _ hsz ?_
      rw [List.all_append]
      rw [hf]
      simp only [Bool.true_and]
      rw [List.all_eq_true]
      intro e he
      exact (List.mem_filter.mp he).2

/-- C5: for every finite remote tree, the walker's result contains, as
a multiset, exactly the files reachable under the root — every file
exactly as often as it occurs in the tree, at any depth and for any
listing order, an empty directory contributing nothing — and the result
contains no directory entries. -/
theorem c5_walker_completeness (root : FSEntry) :
    ((glob_location root : List FSEntry) : Multiset FSEntry)
      = ↑(filesUnderList (children root))
    ∧ (glob_location root).all (fun e => ! is_dir e) = true := by
  constructor
  · unfold glob_location
    rw [globLoop_multiset (esizeList ((children root).filter is_dir)) _ _ le_rfl]
    exact filter_contrib (children root)
  · unfold glob_location
    refine globLoop_no_dirs (esizeList ((children root).filter is_dir)) _ _ le_rfl ?_
    rw [List.all_eq_true]
    intro e he
    exact (List.mem_filter.mp he).2

end RemoteSync
